import Mathlib

/-!
Verification of the geo2blender raster pipeline (merge_rasters.py, export_chunks.py)
against its natural-language specification.

Modelling conventions:
* Geographic coordinates, resolutions and pixel values are rationals (ℚ); the Python
  code computes with IEEE floats, and every concrete instance used below is exactly
  representable, so the rational model agrees with the float computation there.
* numpy arrays are modelled as lists or as total functions from indices to values.
* A Python function that can raise is modelled with Except; a raised exception at a
  given point is an error value carrying a constructor named after that raise site.
* IEEE NaN (which arises in rescale_dsm_global from a zero division) is modelled by
  none in an Option-valued pixel; the undefined uint16 cast of NaN stays none.
-/

namespace Geo2Blender

/-! ### Generic list minimum / maximum helpers

Python's builtin min / max over a nonempty sequence, and np.nanmin / np.nanmax over
the valid values, are folds of the binary min / max over the sequence.  The lemmas
below characterise such folds. -/

theorem foldl_min_le_init (c : ℚ) (t : List ℚ) : t.foldl min c ≤ c := by
  induction t generalizing c with
  | nil => exact le_refl c
  | cons b t ih => exact le_trans (ih (min c b)) (min_le_left c b)

theorem foldl_min_le_mem {x : ℚ} {t : List ℚ} (c : ℚ) (hx : x ∈ t) : t.foldl min c ≤ x := by
  induction t generalizing c with
  | nil => cases hx
  | cons b t ih =>
    rcases List.mem_cons.mp hx with h | h
    · subst h
      exact le_trans (foldl_min_le_init (min c x) t) (min_le_right c x)
    · exact ih (min c b) h

theorem foldl_min_mem (c : ℚ) (t : List ℚ) : t.foldl min c = c ∨ t.foldl min c ∈ t := by
  induction t generalizing c with
  | nil => exact Or.inl rfl
  | cons b t ih =>
    rcases ih (min c b) with h | h
    · rcases min_choice c b with hc | hc
      · exact Or.inl (by simpa [hc] using h)
      · exact Or.inr (List.mem_cons.mpr (Or.inl (by simpa [hc] using h)))
    · exact Or.inr (List.mem_cons.mpr (Or.inr h))

theorem le_foldl_max_init (c : ℚ) (t : List ℚ) : c ≤ t.foldl max c := by
  induction t generalizing c with
  | nil => exact le_refl c
  | cons b t ih => exact le_trans (le_max_left c b) (ih (max c b))

theorem mem_le_foldl_max {x : ℚ} {t : List ℚ} (c : ℚ) (hx : x ∈ t) : x ≤ t.foldl max c := by
  induction t generalizing c with
  | nil => cases hx
  | cons b t ih =>
    rcases List.mem_cons.mp hx with h | h
    · subst h
      exact le_trans (le_max_right c x) (le_foldl_max_init (max c x) t)
    · exact ih (max c b) h

theorem foldl_max_mem (c : ℚ) (t : List ℚ) : t.foldl max c = c ∨ t.foldl max c ∈ t := by
  induction t generalizing c with
  | nil => exact Or.inl rfl
  | cons b t ih =>
    rcases ih (max c b) with h | h
    · rcases max_choice c b with hc | hc
      · exact Or.inl (by simpa [hc] using h)
      · exact Or.inr (List.mem_cons.mpr (Or.inl (by simpa [hc] using h)))
    · exact Or.inr (List.mem_cons.mpr (Or.inr h))

/-! ### Coordinate / extent planner (merge_rasters.py, compute_merge_metadata)

A source raster as seen by the planner: its geographic bounds, the pixel resolution
src.res[0], a coordinate-system identifier and a pixel-datatype identifier. -/

structure SrcBounds where
  left : ℚ
  bottom : ℚ
  right : ℚ
  top : ℚ
deriving DecidableEq

structure SrcDataset where
  bounds : SrcBounds
  res : ℚ
  crs : ℕ
  dtype : ℕ
deriving DecidableEq

/-- Error raised by compute_merge_metadata.  On an empty input list the very first
operation, Python's min over the empty generator of bounds, raises; the spec's
taxonomy names this condition InvalidInputError. -/
inductive MergeError where
  | invalidInput
deriving DecidableEq

structure MergeMetadata where
  crs : ℕ
  dtype : ℕ
  res : ℚ
  width : ℤ
  height : ℤ
  minx : ℚ
  miny : ℚ
  maxx : ℚ
  maxy : ℚ
deriving DecidableEq

/-- Embeds compute_merge_metadata (merge_rasters.py, lines 44-69): the bounding box is
the componentwise min / max over all dataset bounds, the target resolution is the first
dataset's resolution divided by the scale factor, and the output pixel dimensions are
int(np.ceil(extent / target_res)) per axis. -/
def compute_merge_metadata (srcs : List SrcDataset) (scale_factor : ℚ) :
    Except MergeError MergeMetadata :=
  match srcs with
  | [] => .error .invalidInput
  | ref :: rest =>
      let minx := (rest.map fun d => d.bounds.left).foldl min ref.bounds.left
      let miny := (rest.map fun d => d.bounds.bottom).foldl min ref.bounds.bottom
      let maxx := (rest.map fun d => d.bounds.right).foldl max ref.bounds.right
      let maxy := (rest.map fun d => d.bounds.top).foldl max ref.bounds.top
      let target_res := ref.res / scale_factor
      .ok { crs := ref.crs
            dtype := ref.dtype
            res := target_res
            width := ⌈(maxx - minx) / target_res⌉
            height := ⌈(maxy - miny) / target_res⌉
            minx := minx, miny := miny, maxx := maxx, maxy := maxy }

/-- A 1000×1000 dataset of resolution 1.0 covering [0,1000]², the input of the
spec's scale-factor scenario. -/
def demo1000 : SrcDataset := { bounds := ⟨0, 0, 1000, 1000⟩, res := 1, crs := 0, dtype := 0 }

/-- C5: for every nonempty dataset list and scale_factor > 0, the planner's bounding
box is the union of all input bounds (below and tight on each side), the target
resolution is the first dataset's resolution divided by scale_factor, and each output
dimension is the ceiling of extent / target resolution; and on the concrete scenario
(scale_factor 1/2, one 1000×1000 dataset of resolution 1) it returns resolution 2 and
dimensions 500×500. -/
theorem C5_extent_planner :
    (∀ (srcs : List SrcDataset) (scale_factor : ℚ), srcs ≠ [] → 0 < scale_factor →
      ∃ m, compute_merge_metadata srcs scale_factor = .ok m ∧
        (∀ d ∈ srcs, m.minx ≤ d.bounds.left ∧ m.miny ≤ d.bounds.bottom ∧
          d.bounds.right ≤ m.maxx ∧ d.bounds.top ≤ m.maxy) ∧
        ((∃ d ∈ srcs, m.minx = d.bounds.left) ∧ (∃ d ∈ srcs, m.miny = d.bounds.bottom) ∧
          (∃ d ∈ srcs, m.maxx = d.bounds.right) ∧ (∃ d ∈ srcs, m.maxy = d.bounds.top)) ∧
        (∀ d₀, srcs.head? = some d₀ → m.res = d₀.res / scale_factor) ∧
        m.width = ⌈(m.maxx - m.minx) / m.res⌉ ∧ m.height = ⌈(m.maxy - m.miny) / m.res⌉) ∧
    compute_merge_metadata [demo1000] (1/2) =
      .ok { crs := 0, dtype := 0, res := 2, width := 500, height := 500,
            minx := 0, miny := 0, maxx := 1000, maxy := 1000 } := by
  constructor
  · intro srcs scale_factor hne _hsf
    match srcs with
    | [] => exact absurd rfl hne
    | ref :: rest =>
      refine ⟨_, rfl, ?_, ?_, ?_, rfl, rfl⟩
      · intro d hd
        rcases List.mem_cons.mp hd with h | h
        · subst h
          exact ⟨foldl_min_le_init _ _, foldl_min_le_init _ _,
                 le_foldl_max_init _ _, le_foldl_max_init _ _⟩
        · exact ⟨foldl_min_le_mem _ (List.mem_map_of_mem _ h),
                 foldl_min_le_mem _ (List.mem_map_of_mem _ h),
                 mem_le_foldl_max _ (List.mem_map_of_mem _ h),
                 mem_le_foldl_max _ (List.mem_map_of_mem _ h)⟩
      · refine ⟨?_, ?_, ?_, ?_⟩
        · rcases foldl_min_mem ref.bounds.left (rest.map fun d => d.bounds.left) with h | h
          · exact ⟨ref, List.mem_cons_self _ _, h⟩
          · rcases List.mem_map.mp h with ⟨d, hd, hval⟩
            exact ⟨d, List.mem_cons.mpr (Or.inr hd), hval.symm⟩
        · rcases foldl_min_mem ref.bounds.bottom (rest.map fun d => d.bounds.bottom) with h | h
          · exact ⟨ref, List.mem_cons_self _ _, h⟩
          · rcases List.mem_map.mp h with ⟨d, hd, hval⟩
            exact ⟨d, List.mem_cons.mpr (Or.inr hd), hval.symm⟩
        · rcases foldl_max_mem ref.bounds.right (rest.map fun d => d.bounds.right) with h | h
          · exact ⟨ref, List.mem_cons_self _ _, h⟩
          · rcases List.mem_map.mp h with ⟨d, hd, hval⟩
            exact ⟨d, List.mem_cons.mpr (Or.inr hd), hval.symm⟩
        · rcases foldl_max_mem ref.bounds.top (rest.map fun d => d.bounds.top) with h | h
          · exact ⟨ref, List.mem_cons_self _ _, h⟩
          · rcases List.mem_map.mp h with ⟨d, hd, hval⟩
            exact ⟨d, List.mem_cons.mpr (Or.inr hd), hval.symm⟩
      · intro d₀ hd₀
        cases hd₀
        rfl
  · norm_num [compute_merge_metadata, demo1000]

/-- Witness for C5: the general part of C5_extent_planner applied to the concrete
scenario input, every hypothesis discharged there. -/
theorem C5_extent_planner_witness :
    (([demo1000] : List SrcDataset) ≠ [] ∧ (0 : ℚ) < 1/2) ∧
    (∃ m, compute_merge_metadata [demo1000] (1/2) = .ok m ∧
      (∀ d ∈ [demo1000], m.minx ≤ d.bounds.left ∧ m.miny ≤ d.bounds.bottom ∧
        d.bounds.right ≤ m.maxx ∧ d.bounds.top ≤ m.maxy) ∧
      ((∃ d ∈ [demo1000], m.minx = d.bounds.left) ∧
        (∃ d ∈ [demo1000], m.miny = d.bounds.bottom) ∧
        (∃ d ∈ [demo1000], m.maxx = d.bounds.right) ∧
        (∃ d ∈ [demo1000], m.maxy = d.bounds.top)) ∧
      (∀ d₀, ([demo1000] : List SrcDataset).head? = some d₀ → m.res = d₀.res / (1/2)) ∧
      m.width = ⌈(m.maxx - m.minx) / m.res⌉ ∧ m.height = ⌈(m.maxy - m.miny) / m.res⌉) :=
  ⟨⟨by decide, by norm_num⟩, C5_extent_planner.1 [demo1000] (1/2) (by decide) (by norm_num)⟩

/-- C8: on the empty input list the planner fails, for every scale factor; Python's
min over the empty bounds sequence raises before anything else is computed, which the
spec's taxonomy names InvalidInputError. -/
theorem C8_empty_input (scale_factor : ℚ) :
    compute_merge_metadata [] scale_factor = .error .invalidInput := rfl

/-! ### Global elevation rescaler (export_chunks.py, rescale_dsm_global)

The DSM band is modelled as a flat list of pixel values.  np.nanmin / np.nanmax over
the masked array are the fold of min / max over the valid (non-nodata) values.  The
expression ((nan_to_num(valid, nan=gmin) - gmin) / (gmax - gmin) * 65535).astype(uint16)
is modelled per pixel by scale_value: the C cast from float to uint16 truncates, which
for the nonnegative in-range values produced here is the floor; when gmax = gmin the
division is 0/0, giving IEEE NaN whose uint16 cast is undefined — modelled as none.
The source raises no exception anywhere on this path. -/

def scale_value (gmin gmax v : ℚ) : Option ℤ :=
  if gmax - gmin = 0 then none
  else some ⌊(v - gmin) / (gmax - gmin) * 65535⌋

/-- Embeds rescale_dsm_global (export_chunks.py, lines 8-32): mask nodata, take the
global valid min / max, linearly map every pixel (nodata pixels first replaced by the
minimum) and cast to uint16; the original nodata value is returned unchanged.  With no
valid pixel at all, nanmin / nanmax are NaN and every mapped pixel is NaN. -/
def rescale_dsm_global (pixels : List ℚ) (nodata : ℚ) : List (Option ℤ) × ℚ :=
  match pixels.filter fun v => decide (v ≠ nodata) with
  | [] => (pixels.map fun _ => none, nodata)
  | v0 :: vs =>
      let gmin := vs.foldl min v0
      let gmax := vs.foldl max v0
      (pixels.map fun v => scale_value gmin gmax (if v ≠ nodata then v else gmin), nodata)

/-- C3 counterexample: on the raster [0, 1, 2] with nodata -9999 the code maps the
middle pixel (ratio exactly 32767.5) to 32767 by uint16 truncation, whereas the claimed
formula round((v - min) / (max - min) * 65535) gives 32768; min and max still map to
0 and 65535. -/
theorem C3_round_counterexample :
    (rescale_dsm_global [0, 1, 2] (-9999)).1 = [some 0, some 32767, some 65535] ∧
    round ((((1 : ℚ) - 0) / (2 - 0)) * 65535) = 32768 ∧
    (32767 : ℤ) ≠ 32768 := by
  refine ⟨by norm_num [rescale_dsm_global, scale_value], ?_, by decide⟩
  norm_num [round_eq]

/-- C3 (amended): with a nonempty valid set whose max exceeds its min, every valid
pixel v is mapped to floor((v - min) / (max - min) * 65535) — truncation, not rounding —
the global minimum maps to 0, the global maximum to 65535, nodata pixels to 0, and the
returned nodata sentinel is the original value unchanged. -/
theorem C3_rescale_floor (pixels : List ℚ) (nodata v0 gmin gmax : ℚ) (vs : List ℚ)
    (hv : pixels.filter (fun v => decide (v ≠ nodata)) = v0 :: vs)
    (hmin : gmin = vs.foldl min v0) (hmax : gmax = vs.foldl max v0)
    (hlt : gmin < gmax) :
    (rescale_dsm_global pixels nodata).2 = nodata ∧
    (∀ i, (h : i < pixels.length) →
      (rescale_dsm_global pixels nodata).1[i]? =
        some (if pixels[i] ≠ nodata
              then some ⌊(pixels[i] - gmin) / (gmax - gmin) * 65535⌋
              else some 0)) ∧
    (∀ i, (h : i < pixels.length) → pixels[i] = gmin →
      (rescale_dsm_global pixels nodata).1[i]? = some (some 0)) ∧
    (∀ i, (h : i < pixels.length) → pixels[i] = gmax →
      (rescale_dsm_global pixels nodata).1[i]? = some (some 65535)) := by
  have hden : gmax - gmin ≠ 0 := sub_ne_zero.mpr (ne_of_gt hlt)
  have hout : (rescale_dsm_global pixels nodata).1 =
      pixels.map fun v => scale_value gmin gmax (if v ≠ nodata then v else gmin) := by
    unfold rescale_dsm_global
    rw [hv]
    simp [hmin, hmax]
  have hval : ∀ v : ℚ, scale_value gmin gmax (if v ≠ nodata then v else gmin) =
      (if v ≠ nodata then some ⌊(v - gmin) / (gmax - gmin) * 65535⌋ else some 0) := by
    intro v
    by_cases hvn : v ≠ nodata
    · simp [scale_value, hvn, hden]
    · simp [scale_value, hvn, hden]
  refine ⟨?_, ?_, ?_, ?_⟩
  · unfold rescale_dsm_global
    rw [hv]
  · intro i h
    rw [hout, List.getElem?_map, List.getElem?_eq_getElem h]
    simp only [Option.map_some']
    rw [hval]
  · intro i h heq
    rw [hout, List.getElem?_map, List.getElem?_eq_getElem h]
    simp only [Option.map_some']
    rw [hval]
    by_cases hvn : pixels[i] ≠ nodata
    · simp [hvn, heq]
    · simp [hvn]
  · intro i h heq
    have hmem : gmax ∈ pixels.filter fun v => decide (v ≠ nodata) := by
      rw [hv]
      rcases foldl_max_mem v0 vs with hc | hc
      · rw [hmax, hc]; exact List.mem_cons_self _ _
      · exact List.mem_cons.mpr (Or.inr (hmax ▸ hc))
    have hvn : gmax ≠ nodata := by
      have := List.of_mem_filter hmem
      simpa using this
    rw [hout, List.getElem?_map, List.getElem?_eq_getElem h]
    simp only [Option.map_some']
    rw [hval, heq]
    simp only [hvn, if_pos, ne_eq, not_false_eq_true, if_true]
    rw [div_self hden]
    norm_num

/-- Witness for C3: C3_rescale_floor applied to the raster [0, 1, 2] with nodata
-9999, every hypothesis discharged there. -/
theorem C3_rescale_floor_witness :
    (([0, 1, 2] : List ℚ).filter (fun v => decide (v ≠ (-9999 : ℚ))) = 0 :: [1, 2] ∧
      (0 : ℚ) = ([1, 2] : List ℚ).foldl min 0 ∧ (2 : ℚ) = ([1, 2] : List ℚ).foldl max 0 ∧
      (0 : ℚ) < 2) ∧
    ((rescale_dsm_global [0, 1, 2] (-9999)).2 = -9999 ∧
      (∀ i, (h : i < ([0, 1, 2] : List ℚ).length) →
        (rescale_dsm_global [0, 1, 2] (-9999)).1[i]? =
          some (if ([0, 1, 2] : List ℚ)[i] ≠ (-9999 : ℚ)
                then some ⌊(([0, 1, 2] : List ℚ)[i] - 0) / (2 - 0) * 65535⌋
                else some 0)) ∧
      (∀ i, (h : i < ([0, 1, 2] : List ℚ).length) → ([0, 1, 2] : List ℚ)[i] = (0 : ℚ) →
        (rescale_dsm_global [0, 1, 2] (-9999)).1[i]? = some (some 0)) ∧
      (∀ i, (h : i < ([0, 1, 2] : List ℚ).length) → ([0, 1, 2] : List ℚ)[i] = (2 : ℚ) →
        (rescale_dsm_global [0, 1, 2] (-9999)).1[i]? = some (some 65535))) :=
  ⟨⟨by decide, by decide, by decide, by decide⟩,
    C3_rescale_floor [0, 1, 2] (-9999) 0 0 2 [1, 2] (by decide) (by decide) (by decide)
      (by decide)⟩

/-- C7 counterexample: on the flat raster [5, 5] (valid max = valid min = 5) the code
does not fail at all — rescale_dsm_global returns normally, and the 0/0 division it
performs leaves every pixel as NaN cast to uint16 (modelled none), not an error. -/
theorem C7_no_degenerate_error :
    rescale_dsm_global [5, 5] (-9999) = ([none, none], -9999) := by
  norm_num [rescale_dsm_global, scale_value]

/-- C7 (amended): whenever all valid pixel values are equal (flat raster) or there are
none at all (entirely-nodata raster), the global rescale does not raise any error; it
performs the division — 0/0, IEEE NaN — and returns a buffer in which every pixel is
the undefined uint16 cast of NaN (modelled none), with the nodata sentinel unchanged. -/
theorem C7_degenerate_range (pixels : List ℚ) (nodata : ℚ)
    (hall : ∀ v ∈ pixels.filter fun v => decide (v ≠ nodata),
            ∀ w ∈ pixels.filter fun v => decide (v ≠ nodata), v = w) :
    rescale_dsm_global pixels nodata = (pixels.map fun _ => none, nodata) := by
  unfold rescale_dsm_global
  cases hv : pixels.filter fun v => decide (v ≠ nodata) with
  | nil => rfl
  | cons v0 vs =>
    rw [hv] at hall
    have hgmin : vs.foldl min v0 = v0 := by
      rcases foldl_min_mem v0 vs with h | h
      · exact h
      · exact hall _ (List.mem_cons.mpr (Or.inr h)) _ (List.mem_cons_self _ _)
    have hgmax : vs.foldl max v0 = v0 := by
      rcases foldl_max_mem v0 vs with h | h
      · exact h
      · exact hall _ (List.mem_cons.mpr (Or.inr h)) _ (List.mem_cons_self _ _)
    simp only [hgmin, hgmax]
    congr 1
    apply List.map_congr_left
    intro v _
    simp [scale_value]

/-- Witness for C7: C7_degenerate_range applied to the flat raster [5, 5] with nodata
-9999, the all-valid-values-equal hypothesis discharged there. -/
theorem C7_degenerate_range_witness :
    (∀ v ∈ ([5, 5] : List ℚ).filter fun v => decide (v ≠ (-9999 : ℚ)),
      ∀ w ∈ ([5, 5] : List ℚ).filter fun v => decide (v ≠ (-9999 : ℚ)), v = w) ∧
    rescale_dsm_global [5, 5] (-9999) = (([5, 5] : List ℚ).map fun _ => none, -9999) :=
  ⟨by decide, C7_degenerate_range [5, 5] (-9999) (by decide)⟩

/-! ### Blockwise mosaic compositor (merge_rasters.py, write_raster_blocks)

For one output block and one band, write_raster_blocks (lines 103-120) initialises the
block buffer to the nodata value, then for each source dataset in input order fills a
temporary buffer with that dataset's reprojected values (the reprojection service is
external; a source's reprojected block buffer is therefore an arbitrary function from
pixel coordinates to values, with nodata marking unavailable pixels) and overwrites the
block wherever the temporary buffer is not nodata.  The band loop applies this
independently per band. -/

def composite_block (nodata : ℚ) (bufs : List (ℕ → ℕ → ℚ)) : ℕ → ℕ → ℚ :=
  bufs.foldl
    (fun block temp => fun r c => if temp r c ≠ nodata then temp r c else block r c)
    (fun _ _ => nodata)

/-- The value the spec's overwrite policy predicts at one pixel: the value of the last
buffer in input order that is valid (not nodata) there, and nodata if none is. -/
def last_valid (nodata : ℚ) (vals : List ℚ) : ℚ :=
  ((vals.filter fun v => decide (v ≠ nodata)).getLast?).getD nodata

/-- C1: at every pixel, the composited block value equals the reprojected value of the
last source in input order whose reprojected buffer is valid (not nodata) there, and
equals the nodata value when no source is valid there. -/
theorem C1_composite_last_valid (nodata : ℚ) (bufs : List (ℕ → ℕ → ℚ)) (r c : ℕ) :
    composite_block nodata bufs r c = last_valid nodata (bufs.map fun b => b r c) := by
  induction bufs using List.reverseRecOn with
  | nil => rfl
  | append_singleton bs b ih =>
    have hcomp : composite_block nodata (bs ++ [b]) r c =
        if b r c ≠ nodata then b r c else composite_block nodata bs r c := by
      unfold composite_block
      rw [List.foldl_append]
      rfl
    rw [hcomp]
    unfold last_valid
    rw [List.map_append, List.filter_append]
    by_cases hb : b r c ≠ nodata
    · simp only [List.map_cons, List.map_nil, List.filter_cons, decide_eq_true_eq, hb,
        if_pos, List.filter_nil, List.getLast?_concat]
      simp [hb]
    · have hemp : (List.map (fun b => b r c) [b]).filter (fun v => decide (v ≠ nodata)) = [] := by
        simp [hb]
      rw [hemp, List.append_nil, if_neg hb]
      exact ih

/-! ### Source handle lifecycle of merge_rasters (merge_rasters.py, lines 131-143)

merge_rasters opens one handle per input file (handle ids 0, 1, ...), then
reproject_rasters_to_crs replaces every source whose coordinate system differs from
the first source's by a freshly opened in-memory dataset (handle ids starting at the
number of files, in source order) while leaving the original handle open.  After the
metadata and blockwise-write stages it closes the datasets in src_datasets — but only
on the straight-line path: there is no try/finally, so a raised error skips the close
loop.  A source is summarised by its coordinate-system identifier (the only field the
handle bookkeeping depends on); writeFails models a fatal reprojection or I/O error
inside write_raster_blocks (spec §4.2: fatal to the whole operation). -/

def mismatchesBefore (crss : List ℕ) (target : ℕ) (i : ℕ) : ℕ :=
  ((crss.take i).filter fun c => decide (c ≠ target)).length

/-- Handle ids of the datasets returned by reproject_rasters_to_crs: position i keeps
handle i when its coordinate system already matches, and otherwise is the next fresh
in-memory handle (numbered from crss.length in source order). -/
def src_dataset_ids (crss : List ℕ) (target : ℕ) : List ℕ :=
  (List.range crss.length).map fun i =>
    if crss.getD i target ≠ target then crss.length + mismatchesBefore crss target i else i

/-- Every handle merge_rasters ever opens: one per input file plus the in-memory
datasets created by reprojection. -/
def opened_handles (crss : List ℕ) (target : ℕ) : List ℕ :=
  List.range crss.length ++
    (src_dataset_ids crss target).filter fun i => decide (crss.length ≤ i)

inductive MergeRunError where
  | indexError
  | writeFailure
deriving DecidableEq

/-- Embeds the resource behaviour of merge_rasters: returns the outcome together with
the list of handles still open on exit.  On an empty file list, src_paths[0] raises
before anything is opened.  On a write-stage failure the exception propagates past the
close loop, so every opened handle stays open; on success exactly the handles in
src_datasets are closed. -/
def merge_rasters_open (crss : List ℕ) (writeFails : Bool) :
    Except MergeRunError String × List ℕ :=
  match crss with
  | [] => (.error .indexError, [])
  | c0 :: rest =>
      let all := c0 :: rest
      let datasets := src_dataset_ids all c0
      let openSet := opened_handles all c0
      if writeFails then (.error .writeFailure, openSet)
      else (.ok "merged", openSet.filter fun i => decide (i ∉ datasets))

/-- C9 counterexample: merging two same-CRS files when the blockwise-write stage fails
leaves both source handles open on exit — the claim that all sources are closed on any
exit is false. -/
theorem C9_leak_counterexample :
    merge_rasters_open [0, 0] true = (.error .writeFailure, [0, 1]) ∧
    ([0, 1] : List ℕ) ≠ [] := by
  constructor
  · rfl
  · decide

theorem mem_src_dataset_ids_of_match {crss : List ℕ} {target i : ℕ}
    (hi : i < crss.length) (hm : crss.getD i target = target) :
    i ∈ src_dataset_ids crss target := by
  unfold src_dataset_ids
  refine List.mem_map.mpr ⟨i, List.mem_range.mpr hi, ?_⟩
  rw [if_neg (not_ne_iff.mpr hm)]

theorem mem_src_dataset_ids_small {crss : List ℕ} {target i : ℕ}
    (hi : i < crss.length) (hmem : i ∈ src_dataset_ids crss target) :
    crss.getD i target = target := by
  unfold src_dataset_ids at hmem
  rcases List.mem_map.mp hmem with ⟨j, hj, hval⟩
  by_cases hc : crss.getD j target ≠ target
  · rw [if_pos hc] at hval
    omega
  · rw [if_neg hc] at hval
    subst hval
    exact not_ne_iff.mp hc

/-- C9 (amended): the close loop runs only on the success path.  When the write stage
fails, merge_rasters exits with the error and every handle it opened is still open;
when it succeeds, the datasets used for compositing are closed and exactly the original
handles that reprojection replaced (sources whose coordinate system differed from the
first source's) remain open. -/
theorem C9_close_only_on_success (c0 : ℕ) (rest : List ℕ) (writeFails : Bool) :
    (writeFails = true →
      merge_rasters_open (c0 :: rest) writeFails =
        (.error .writeFailure, opened_handles (c0 :: rest) c0)) ∧
    (writeFails = false →
      (merge_rasters_open (c0 :: rest) writeFails).1 = .ok "merged" ∧
      (merge_rasters_open (c0 :: rest) writeFails).2 =
        (List.range (c0 :: rest).length).filter
          fun i => decide ((c0 :: rest).getD i c0 ≠ c0)) := by
  constructor
  · intro h
    subst h
    rfl
  · intro h
    subst h
    refine ⟨rfl, ?_⟩
    show (opened_handles (c0 :: rest) c0).filter
        (fun i => decide (i ∉ src_dataset_ids (c0 :: rest) c0)) = _
    unfold opened_handles
    rw [List.filter_append]
    have hmem : ((src_dataset_ids (c0 :: rest) c0).filter
        fun i => decide ((c0 :: rest).length ≤ i)).filter
        (fun i => decide (i ∉ src_dataset_ids (c0 :: rest) c0)) = [] := by
      rw [List.filter_eq_nil_iff]
      intro a ha
      have : a ∈ src_dataset_ids (c0 :: rest) c0 := (List.mem_filter.mp ha).1
      simp [this]
    rw [hmem, List.append_nil]
    apply List.filter_congr
    intro i hi
    have hilt : i < (c0 :: rest).length := List.mem_range.mp hi
    by_cases hm : (c0 :: rest).getD i c0 = c0
    · have hin : i ∈ src_dataset_ids (c0 :: rest) c0 := mem_src_dataset_ids_of_match hilt hm
      exact decide_eq_decide.mpr (iff_of_false (not_not_intro hin) (not_ne_iff.mpr hm))
    · have hout : i ∉ src_dataset_ids (c0 :: rest) c0 := fun hc =>
        hm (mem_src_dataset_ids_small hilt hc)
      exact decide_eq_decide.mpr (iff_of_true hout hm)

/-- Witness for C9: C9_close_only_on_success applied to two concrete runs over files
with coordinate systems [7, 7, 8] — a failing write stage (every hypothesis of the
first part discharged) and a successful one (second part). -/
theorem C9_close_only_on_success_witness :
    (true = true ∧
      merge_rasters_open [7, 7, 8] true = (.error .writeFailure, opened_handles [7, 7, 8] 7)) ∧
    (false = false ∧
      (merge_rasters_open [7, 7, 8] false).1 = .ok "merged" ∧
      (merge_rasters_open [7, 7, 8] false).2 =
        (List.range ([7, 7, 8] : List ℕ).length).filter
          fun i => decide (([7, 7, 8] : List ℕ).getD i 7 ≠ 7)) :=
  ⟨⟨rfl, (C9_close_only_on_success 7 [7, 8] true).1 rfl⟩,
   ⟨rfl, (C9_close_only_on_success 7 [7, 8] false).2 rfl⟩⟩

/-! ### Decimal digit strings

Python's format specifier 03d renders a natural number as its decimal digits padded
with leading zeros to width at least three; Lean's core Nat.toDigits computes the same
decimal digit list.  The lemmas below establish the decode roundtrip, from which the
zero-padded encoding is injective — the property behind "pair tiles by filename
alone". -/

def decDigits (l : List Char) : ℕ := l.foldl (fun a c => a * 10 + (c.toNat - 48)) 0

theorem toDigitsCore_append (f : ℕ) : ∀ (n : ℕ) (ds : List Char),
    Nat.toDigitsCore 10 f n ds = Nat.toDigitsCore 10 f n [] ++ ds := by
  induction f with
  | zero => intro n ds; simp [Nat.toDigitsCore]
  | succ f ih =>
    intro n ds
    simp only [Nat.toDigitsCore]
    by_cases h : n / 10 = 0
    · simp [h]
    · simp only [h, if_false]
      rw [ih (n / 10) (Nat.digitChar (n % 10) :: ds), ih (n / 10) [Nat.digitChar (n % 10)]]
      simp

theorem toDigitsCore_fuel (f₁ : ℕ) : ∀ (f₂ n : ℕ) (ds : List Char), n < f₁ → n < f₂ →
    Nat.toDigitsCore 10 f₁ n ds = Nat.toDigitsCore 10 f₂ n ds := by
  induction f₁ with
  | zero => intro f₂ n ds h₁ _; omega
  | succ f₁ ih =>
    intro f₂ n ds h₁ h₂
    match f₂ with
    | 0 => omega
    | f₂ + 1 =>
      simp only [Nat.toDigitsCore]
      by_cases h : n / 10 = 0
      · simp [h]
      · simp only [h, if_false]
        have hn : 0 < n := by
          rcases Nat.eq_zero_or_pos n with h0 | h0
          · subst h0; simp at h
          · exact h0
        have hlt : n / 10 < n := Nat.div_lt_self hn (by omega)
        exact ih f₂ (n / 10) _ (by omega) (by omega)

theorem toDigits_step {n : ℕ} (h : 10 ≤ n) :
    Nat.toDigits 10 n = Nat.toDigits 10 (n / 10) ++ [Nat.digitChar (n % 10)] := by
  have hne : n / 10 ≠ 0 := by
    intro h0
    have := Nat.div_eq_zero_iff (by omega : 0 < 10) |>.mp h0
    omega
  show Nat.toDigitsCore 10 (n + 1) n [] = _
  simp only [Nat.toDigitsCore, hne, if_false]
  rw [toDigitsCore_append n (n / 10) [Nat.digitChar (n % 10)]]
  congr 1
  have hlt : n / 10 < n := Nat.div_lt_self (by omega) (by omega)
  exact toDigitsCore_fuel n (n / 10 + 1) (n / 10) [] hlt (by omega)

theorem toDigits_small {n : ℕ} (h : n < 10) : Nat.toDigits 10 n = [Nat.digitChar n] := by
  have h0 : n / 10 = 0 := Nat.div_eq_of_lt h
  show Nat.toDigitsCore 10 (n + 1) n [] = _
  simp [Nat.toDigitsCore, h0, Nat.mod_eq_of_lt h]

theorem digitChar_decode : ∀ m, m < 10 → (Nat.digitChar m).toNat - 48 = m := by decide

theorem digitChar_not_sep : ∀ m, m < 10 →
    Nat.digitChar m ≠ '_' ∧ Nat.digitChar m ≠ '.' := by decide

theorem decDigits_toDigits (n : ℕ) : decDigits (Nat.toDigits 10 n) = n := by
  induction n using Nat.strong_induction_on with
  | _ n ih =>
    by_cases h : n < 10
    · rw [toDigits_small h]
      show (0 * 10 + ((Nat.digitChar n).toNat - 48)) = n
      rw [digitChar_decode n h]
      omega
    · push_neg at h
      rw [toDigits_step h]
      unfold decDigits
      rw [List.foldl_append]
      have ihd := ih (n / 10) (Nat.div_lt_self (by omega) (by omega))
      unfold decDigits at ihd
      rw [ihd]
      show n / 10 * 10 + ((Nat.digitChar (n % 10)).toNat - 48) = n
      rw [digitChar_decode (n % 10) (Nat.mod_lt n (by omega))]
      omega

theorem toDigitsCore_chars (f : ℕ) : ∀ (n : ℕ) (ds : List Char) (c : Char),
    c ∈ Nat.toDigitsCore 10 f n ds → c ∈ ds ∨ ∃ m, m < 10 ∧ c = Nat.digitChar m := by
  induction f with
  | zero => intro n ds c hc; exact Or.inl hc
  | succ f ih =>
    intro n ds c hc
    simp only [Nat.toDigitsCore] at hc
    by_cases h : n / 10 = 0
    · rw [if_pos h] at hc
      rcases List.mem_cons.mp hc with h' | h'
      · exact Or.inr ⟨n % 10, Nat.mod_lt n (by omega), h'⟩
      · exact Or.inl h'
    · rw [if_neg h] at hc
      rcases ih (n / 10) _ c hc with h' | h'
      · rcases List.mem_cons.mp h' with h'' | h''
        · exact Or.inr ⟨n % 10, Nat.mod_lt n (by omega), h''⟩
        · exact Or.inl h''
      · exact Or.inr h'

theorem toDigits_chars {n : ℕ} {c : Char} (hc : c ∈ Nat.toDigits 10 n) :
    c ≠ '_' ∧ c ≠ '.' := by
  rcases toDigitsCore_chars (n + 1) n [] c hc with h | ⟨m, hm, rfl⟩
  · cases h
  · exact digitChar_not_sep m hm

/-- Decimal digits of n zero-padded to width at least 3, the character list behind
Python's format specifier 03d as used in the chunk filenames. -/
def pad3Chars (n : ℕ) : List Char :=
  List.replicate (3 - (Nat.toDigits 10 n).length) '0' ++ Nat.toDigits 10 n

theorem foldl_step_zeros (k : ℕ) :
    (List.replicate k '0').foldl (fun a c => a * 10 + (c.toNat - 48)) 0 = 0 := by
  induction k with
  | zero => rfl
  | succ k ih => simpa [List.replicate_succ] using ih

theorem decDigits_pad3 (n : ℕ) : decDigits (pad3Chars n) = n := by
  unfold pad3Chars decDigits
  rw [List.foldl_append, foldl_step_zeros]
  exact decDigits_toDigits n

theorem pad3Chars_inj {m n : ℕ} (h : pad3Chars m = pad3Chars n) : m = n := by
  have h' := congrArg decDigits h
  rwa [decDigits_pad3, decDigits_pad3] at h'

theorem pad3Chars_chars {n : ℕ} {c : Char} (hc : c ∈ pad3Chars n) : c ≠ '_' ∧ c ≠ '.' := by
  unfold pad3Chars at hc
  rcases List.mem_append.mp hc with h | h
  · rw [List.eq_of_mem_replicate h]
    exact ⟨by decide, by decide⟩
  · exact toDigits_chars h

theorem append_cons_sep_inj {sep : Char} : ∀ {a₁ : List Char} {a₂ b₁ b₂ : List Char},
    sep ∉ a₁ → sep ∉ a₂ → a₁ ++ sep :: b₁ = a₂ ++ sep :: b₂ → a₁ = a₂ ∧ b₁ = b₂ := by
  intro a₁
  induction a₁ with
  | nil =>
    intro a₂ b₁ b₂ _h₁ h₂ h
    cases a₂ with
    | nil => simpa using h
    | cons y t =>
      exfalso
      simp only [List.nil_append, List.cons_append, List.cons.injEq] at h
      exact h₂ (h.1 ▸ List.mem_cons_self y t)
  | cons x t ih =>
    intro a₂ b₁ b₂ h₁ h₂ h
    cases a₂ with
    | nil =>
      exfalso
      simp only [List.cons_append, List.nil_append, List.cons.injEq] at h
      exact h₁ (h.1 ▸ List.mem_cons_self x t)
    | cons y t₂ =>
      simp only [List.cons_append, List.cons.injEq] at h
      have ht : t = t₂ ∧ b₁ = b₂ :=
        ih (fun hm => h₁ (List.mem_cons.mpr (Or.inr hm)))
           (fun hm => h₂ (List.mem_cons.mpr (Or.inr hm))) h.2
      exact ⟨by rw [h.1, ht.1], ht.2⟩

def pad3 (n : ℕ) : String := ⟨pad3Chars n⟩

/-- The chunk filename pattern of export_chunks.py lines 104-105: category, then the
zero-padded row and column, as in dsm_r003_c012.png. -/
def tileName (kind : String) (row col : ℕ) : String :=
  kind ++ "_r" ++ pad3 row ++ "_c" ++ pad3 col ++ ".png"

theorem tileName_data (kind : String) (row col : ℕ) :
    (tileName kind row col).data =
      kind.data ++ '_' :: 'r' ::
        (pad3Chars row ++ '_' :: 'c' :: (pad3Chars col ++ ['.', 'p', 'n', 'g'])) := by
  show (kind ++ "_r" ++ pad3 row ++ "_c" ++ pad3 col ++ ".png").data = _
  simp [pad3, String.instAppend, String.append]

theorem tileName_inj {k₁ k₂ : String} {r₁ c₁ r₂ c₂ : ℕ}
    (h₁ : '_' ∉ k₁.data) (h₂ : '_' ∉ k₂.data)
    (h : tileName k₁ r₁ c₁ = tileName k₂ r₂ c₂) : k₁ = k₂ ∧ r₁ = r₂ ∧ c₁ = c₂ := by
  have hd := congrArg String.data h
  rw [tileName_data, tileName_data] at hd
  obtain ⟨hk, hrest⟩ := append_cons_sep_inj h₁ h₂ hd
  have hrest₂ : pad3Chars r₁ ++ '_' :: 'c' :: (pad3Chars c₁ ++ ['.', 'p', 'n', 'g']) =
      pad3Chars r₂ ++ '_' :: 'c' :: (pad3Chars c₂ ++ ['.', 'p', 'n', 'g']) :=
    (List.cons.inj hrest).2
  obtain ⟨hr, hrest₃⟩ := append_cons_sep_inj
    (fun hm => (pad3Chars_chars hm).1 rfl) (fun hm => (pad3Chars_chars hm).1 rfl) hrest₂
  have hrest₄ : pad3Chars c₁ ++ '.' :: ['p', 'n', 'g'] =
      pad3Chars c₂ ++ '.' :: ['p', 'n', 'g'] := (List.cons.inj hrest₃).2
  obtain ⟨hc, _⟩ := append_cons_sep_inj
    (fun hm => (pad3Chars_chars hm).2 rfl) (fun hm => (pad3Chars_chars hm).2 rfl) hrest₄
  refine ⟨?_, pad3Chars_inj hr, pad3Chars_inj hc⟩
  cases k₁
  cases k₂
  exact congrArg String.mk (by simpa using hk)

/-! ### Geo-aligned chunk splitter (export_chunks.py, generate_chunks)

A merged mosaic as the splitter sees it: coordinate system, geographic bounds, per-axis
resolution, pixel dimensions, band count, nodata value and a pixel accessor
(1-based band, pixel row counted from the top, pixel column). -/

structure Raster where
  crs : ℕ
  left : ℚ
  bottom : ℚ
  right : ℚ
  top : ℚ
  res_x : ℚ
  res_y : ℚ
  width : ℕ
  height : ℕ
  count : ℕ
  nodata : ℚ
  px : ℕ → ℕ → ℕ → ℚ

structure GeoCell where
  left : ℚ
  right : ℚ
  bottom : ℚ
  top : ℚ
deriving DecidableEq

/-- Embeds the per-cell geometry of generate_chunks (export_chunks.py, lines 79-87):
chunk_left = left + col * chunk_width, chunk_right = chunk_left + chunk_width,
chunk_bottom = bottom + row * chunk_height, chunk_top = chunk_bottom + chunk_height,
with chunk_width = (right - left) / n_cols and chunk_height = (top - bottom) / n_rows. -/
def chunk_cell (left bottom right top : ℚ) (n_rows n_cols row col : ℕ) : GeoCell :=
  let chunk_width := (right - left) / n_cols
  let chunk_height := (top - bottom) / n_rows
  { left := left + col * chunk_width
    right := left + col * chunk_width + chunk_width
    bottom := bottom + row * chunk_height
    top := bottom + row * chunk_height + chunk_height }

/-- The fractional pixel window rasterio's dataset.window(left, bottom, right, top)
computes for a geographic rectangle, in the raster's own grid. -/
structure RWindow where
  col_off : ℚ
  row_off : ℚ
  w : ℚ
  h : ℚ
deriving DecidableEq

def raster_window (ras : Raster) (left bottom right top : ℚ) : RWindow :=
  { col_off := (left - ras.left) / ras.res_x
    row_off := (ras.top - top) / ras.res_y
    w := (right - left) / ras.res_x
    h := (top - bottom) / ras.res_y }

/-- A boundless window read (export_chunks.py, line 100-101): pixels of the window that
fall outside the raster's actual extent are filled with the raster's nodata value. -/
def boundless_read (ras : Raster) (band : ℕ) (row_off col_off : ℤ) (r c : ℕ) : ℚ :=
  if 0 ≤ row_off + r ∧ row_off + r < ras.height ∧ 0 ≤ col_off + c ∧ col_off + c < ras.width
  then ras.px band (row_off + r).toNat (col_off + c).toNat
  else ras.nodata

/-- The satellite.read([1, 2, 3], ...) call: channel position i of the chunk holds
band i+1, so the channels are bands 1, 2, 3 in that order and any further bands of the
raster are never read. -/
def read_rgb (sat : Raster) (row_off col_off : ℤ) : Fin 3 → ℕ → ℕ → ℚ :=
  fun i r c => boundless_read sat (i.val + 1) row_off col_off r c

/-- np.moveaxis(rgb_chunk, 0, -1) in save_rgb_chunk_png (export_chunks.py, line 48):
reorder (band, row, col) to (row, col, band). -/
def moveaxis_rgb (buf : Fin 3 → ℕ → ℕ → ℚ) : ℕ → ℕ → Fin 3 → ℚ :=
  fun r c i => buf i r c

inductive TileKind where
  | dsm
  | satellite
deriving DecidableEq

def kindStr : TileKind → String
  | .dsm => "dsm"
  | .satellite => "satellite"

/-- Payload of an emitted tile: a DSM tile is the slice of the globally rescaled
buffer at the int()-truncated dsm window (the window itself is recorded); a color tile
is the channel-last 3-band buffer that save_rgb_chunk_png encodes. -/
inductive TileData where
  | dsmChunk (window : RWindow)
  | rgbChunk (buf : ℕ → ℕ → Fin 3 → ℚ)

structure Tile where
  kind : TileKind
  row : ℕ
  col : ℕ
  filename : String
  cell : GeoCell
  payload : TileData

/-- The two tiles generate_chunks emits for one grid cell (export_chunks.py, lines
83-109): the DSM chunk and the satellite chunk, with their filenames. -/
def cell_tiles (dsm sat : Raster) (left bottom right top : ℚ)
    (n_rows n_cols row col : ℕ) : List Tile :=
  let cell := chunk_cell left bottom right top n_rows n_cols row col
  let dsm_w := raster_window dsm cell.left cell.bottom cell.right cell.top
  let sat_w := raster_window sat cell.left cell.bottom cell.right cell.top
  [{ kind := .dsm, row := row, col := col, filename := tileName "dsm" row col,
     cell := cell, payload := .dsmChunk dsm_w },
   { kind := .satellite, row := row, col := col, filename := tileName "satellite" row col,
     cell := cell,
     payload := .rgbChunk (moveaxis_rgb (read_rgb sat ⌊sat_w.row_off⌋ ⌊sat_w.col_off⌋)) }]

/-- All tiles of one run, iterating rows then columns over the n_rows × n_cols grid of
the intersection bounding box (left/bottom are the max, right/top the min of the two
rasters' bounds — export_chunks.py, lines 74-77). -/
def chunk_tiles (dsm sat : Raster) (n_rows n_cols : ℕ) : List Tile :=
  let left := max dsm.left sat.left
  let right := min dsm.right sat.right
  let bottom := max dsm.bottom sat.bottom
  let top := min dsm.top sat.top
  (List.range n_rows).flatMap fun row =>
    (List.range n_cols).flatMap fun col =>
      cell_tiles dsm sat left bottom right top n_rows n_cols row col

/-- The raise at export_chunks.py line 71 (a ValueError reading "CRS mismatch between
DSM and Satellite rasters"), which the spec's taxonomy names
CoordinateSystemMismatchError. -/
inductive ChunkError where
  | crsMismatch
deriving DecidableEq

/-- The externally visible I/O steps of generate_chunks, in program order:
os.makedirs (line 64), the full-raster DSM read inside rescale_dsm_global (line 67 via
line 17), opening the two inputs (line 69), the per-cell satellite window read
(line 100) and each tile file written (lines 108-109). -/
inductive TraceEvent where
  | makeOutputFolder
  | readDsmFull
  | openInputs
  | readSatelliteWindow (row col : ℕ)
  | writeTileFile (filename : String)
deriving DecidableEq

def chunk_events (n_rows n_cols : ℕ) : List TraceEvent :=
  (List.range n_rows).flatMap fun row =>
    (List.range n_cols).flatMap fun col =>
      [.readSatelliteWindow row col,
       .writeTileFile (tileName "dsm" row col),
       .writeTileFile (tileName "satellite" row col)]

/-- Embeds generate_chunks (export_chunks.py, lines 53-112): the output folder is
created and the DSM is read in full and rescaled first; only then are the two rasters
opened and their coordinate systems compared, raising on mismatch before any window
read or tile write; otherwise the grid of tile pairs is produced.  The trace records
the I/O steps in program order. -/
def generate_chunks (dsm sat : Raster) (n_rows n_cols : ℕ) :
    List TraceEvent × Except ChunkError (List Tile) :=
  if dsm.crs ≠ sat.crs then
    ([.makeOutputFolder, .readDsmFull, .openInputs], .error .crsMismatch)
  else
    ([.makeOutputFolder, .readDsmFull, .openInputs] ++ chunk_events n_rows n_cols,
     .ok (chunk_tiles dsm sat n_rows n_cols))

/-- A 2×2 elevation mosaic over [0,2]², resolution 1, used as a concrete input. -/
def demoDsm : Raster :=
  { crs := 0, left := 0, bottom := 0, right := 2, top := 2, res_x := 1, res_y := 1,
    width := 2, height := 2, count := 1, nodata := -9999, px := fun _ _ _ => 1 }

/-- A matching 3-band color mosaic over the same extent and grid. -/
def demoSat : Raster :=
  { crs := 0, left := 0, bottom := 0, right := 2, top := 2, res_x := 1, res_y := 1,
    width := 2, height := 2, count := 3, nodata := 0, px := fun _ _ _ => 1 }

/-- The same color mosaic declared in a different coordinate system. -/
def demoSatBadCrs : Raster :=
  { crs := 1, left := 0, bottom := 0, right := 2, top := 2, res_x := 1, res_y := 1,
    width := 2, height := 2, count := 3, nodata := 0, px := fun _ _ _ => 1 }

/-- C6 counterexample: on mismatched coordinate systems generate_chunks does fail with
the mismatch error and writes zero tile files, but not before any raster I/O — the
full-raster DSM read of the global rescale precedes the check in the trace. -/
theorem C6_dsm_read_before_check :
    generate_chunks demoDsm demoSatBadCrs 4 4 =
      ([.makeOutputFolder, .readDsmFull, .openInputs], .error .crsMismatch) ∧
    TraceEvent.readDsmFull ∈ (generate_chunks demoDsm demoSatBadCrs 4 4).1 ∧
    (generate_chunks demoDsm demoSatBadCrs 4 4).1.countP
      (fun e => match e with | .writeTileFile _ => true | _ => false) = 0 := by
  refine ⟨rfl, ?_, rfl⟩
  rw [(rfl : generate_chunks demoDsm demoSatBadCrs 4 4 =
    ([.makeOutputFolder, .readDsmFull, .openInputs], .error .crsMismatch))]
  exact List.mem_cons.mpr (Or.inr (List.mem_cons_self _ _))

/-- C6 (amended): when the coordinate systems differ, generate_chunks fails with the
mismatch error (spec name CoordinateSystemMismatchError, a ValueError in the code)
after creating the output folder and reading the whole DSM for the global rescale, but
before any satellite window read or tile write — so zero tile files are produced. -/
theorem C6_crs_mismatch (dsm sat : Raster) (n_rows n_cols : ℕ) (h : dsm.crs ≠ sat.crs) :
    generate_chunks dsm sat n_rows n_cols =
      ([.makeOutputFolder, .readDsmFull, .openInputs], .error .crsMismatch) := by
  unfold generate_chunks
  rw [if_pos h]

/-- Witness for C6: C6_crs_mismatch applied to the concrete mismatched pair, the
hypothesis discharged there. -/
theorem C6_crs_mismatch_witness :
    demoDsm.crs ≠ demoSatBadCrs.crs ∧
    generate_chunks demoDsm demoSatBadCrs 1 1 =
      ([.makeOutputFolder, .readDsmFull, .openInputs], .error .crsMismatch) :=
  ⟨by decide, C6_crs_mismatch demoDsm demoSatBadCrs 1 1 (by decide)⟩

/-! ### Grid structure of the emitted tiles -/

theorem sum_map_const_nat (n k : ℕ) : ((List.range n).map fun _ => k).sum = n * k := by
  induction n with
  | zero => simp
  | succ n ih =>
    rw [List.range_succ, List.map_append, List.sum_append]
    simp [ih, Nat.succ_mul]

theorem sum_map_ite_nat (n j k : ℕ) :
    ((List.range n).map fun i => if i = j then k else 0).sum = if j < n then k else 0 := by
  induction n with
  | zero => simp
  | succ n ih =>
    rw [List.range_succ, List.map_append, List.sum_append, ih]
    simp only [List.map_cons, List.map_nil, List.sum_cons, List.sum_nil]
    by_cases h1 : j < n
    · have h2 : n ≠ j := by omega
      have h3 : j < n + 1 := by omega
      simp [h1, h2, h3]
    · by_cases h2 : n = j
      · subst h2
        simp [h1]
      · have h3 : ¬ j < n + 1 := by omega
        simp [h1, h2, h3]

theorem sum_map_const_rat (n : ℕ) (q : ℚ) : ((List.range n).map fun _ => q).sum = n * q := by
  induction n with
  | zero => simp
  | succ n ih =>
    rw [List.range_succ, List.map_append, List.sum_append]
    simp only [List.map_cons, List.map_nil, List.sum_cons, List.sum_nil, ih]
    push_cast
    ring

theorem countP_chunk_tiles (dsm sat : Raster) (n_rows n_cols : ℕ) (p : Tile → Bool) :
    (chunk_tiles dsm sat n_rows n_cols).countP p =
      ((List.range n_rows).map fun row =>
        ((List.range n_cols).map fun col =>
          (cell_tiles dsm sat (max dsm.left sat.left) (max dsm.bottom sat.bottom)
            (min dsm.right sat.right) (min dsm.top sat.top)
            n_rows n_cols row col).countP p).sum).sum := by
  unfold chunk_tiles
  rw [List.countP_flatMap]
  refine congrArg List.sum (List.map_congr_left ?_)
  intro row _
  show List.countP p ((List.range n_cols).flatMap fun col =>
    cell_tiles dsm sat (max dsm.left sat.left) (max dsm.bottom sat.bottom)
      (min dsm.right sat.right) (min dsm.top sat.top) n_rows n_cols row col) = _
  rw [List.countP_flatMap]
  exact congrArg List.sum (List.map_congr_left fun col _ => rfl)

theorem mem_chunk_tiles {dsm sat : Raster} {n_rows n_cols : ℕ} {t : Tile}
    (ht : t ∈ chunk_tiles dsm sat n_rows n_cols) :
    ∃ row col, row < n_rows ∧ col < n_cols ∧
      t ∈ cell_tiles dsm sat (max dsm.left sat.left) (max dsm.bottom sat.bottom)
        (min dsm.right sat.right) (min dsm.top sat.top) n_rows n_cols row col := by
  unfold chunk_tiles at ht
  rcases List.mem_flatMap.mp ht with ⟨row, hrow, ht₂⟩
  rcases List.mem_flatMap.mp ht₂ with ⟨col, hcol, ht₃⟩
  exact ⟨row, col, List.mem_range.mp hrow, List.mem_range.mp hcol, ht₃⟩

theorem cell_tiles_cases {dsm sat : Raster} {left bottom right top : ℚ}
    {n_rows n_cols row col : ℕ} {t : Tile}
    (ht : t ∈ cell_tiles dsm sat left bottom right top n_rows n_cols row col) :
    t.kind = .dsm ∨ t.kind = .satellite := by
  rcases List.mem_cons.mp ht with rfl | ht₂
  · exact Or.inl rfl
  · rcases List.mem_cons.mp ht₂ with rfl | ht₃
    · exact Or.inr rfl
    · cases ht₃

theorem cell_tiles_fields {dsm sat : Raster} {left bottom right top : ℚ}
    {n_rows n_cols row col : ℕ} {t : Tile}
    (ht : t ∈ cell_tiles dsm sat left bottom right top n_rows n_cols row col) :
    t.row = row ∧ t.col = col ∧
    t.cell = chunk_cell left bottom right top n_rows n_cols row col ∧
    t.filename = tileName (kindStr t.kind) row col := by
  rcases List.mem_cons.mp ht with rfl | ht₂
  · exact ⟨rfl, rfl, rfl, rfl⟩
  · rcases List.mem_cons.mp ht₂ with rfl | ht₃
    · exact ⟨rfl, rfl, rfl, rfl⟩
    · cases ht₃

theorem chunk_cell_left (left bottom right top : ℚ) (n_rows n_cols row col : ℕ) :
    (chunk_cell left bottom right top n_rows n_cols row col).left =
      left + col * ((right - left) / n_cols) := rfl

theorem chunk_cell_right (left bottom right top : ℚ) (n_rows n_cols row col : ℕ) :
    (chunk_cell left bottom right top n_rows n_cols row col).right =
      left + col * ((right - left) / n_cols) + (right - left) / n_cols := rfl

theorem chunk_cell_bottom (left bottom right top : ℚ) (n_rows n_cols row col : ℕ) :
    (chunk_cell left bottom right top n_rows n_cols row col).bottom =
      bottom + row * ((top - bottom) / n_rows) := rfl

theorem chunk_cell_top (left bottom right top : ℚ) (n_rows n_cols row col : ℕ) :
    (chunk_cell left bottom right top n_rows n_cols row col).top =
      bottom + row * ((top - bottom) / n_rows) + (top - bottom) / n_rows := rfl

/-- C2 counterexample: with both mosaics covering [0,2]² (intersection bounding box
[0,2]², top = 2) and a 2×1 grid, the row-0 cell spans geographic y from 0 to 1 — the
bottom strip — while the row-1 cell reaches the top of the box; so row 0 is not the
strip with the greatest geographic y and the row index grows as y grows, contrary to
the claim. -/
theorem C2_row0_is_bottom :
    (generate_chunks demoDsm demoSat 2 1).2.map
        (fun tiles => tiles.map fun t => (t.kind, t.row, t.col, t.cell)) =
      .ok [(.dsm, 0, 0, ⟨0, 2, 0, 1⟩), (.satellite, 0, 0, ⟨0, 2, 0, 1⟩),
           (.dsm, 1, 0, ⟨0, 2, 1, 2⟩), (.satellite, 1, 0, ⟨0, 2, 1, 2⟩)] ∧
    (chunk_cell 0 0 2 2 2 1 0 0).bottom = 0 ∧ (chunk_cell 0 0 2 2 2 1 0 0).top = 1 ∧
    (chunk_cell 0 0 2 2 2 1 1 0).top = 2 ∧ (1 : ℚ) ≠ 2 := by
  refine ⟨?_, ?_, ?_, ?_, by norm_num⟩
  · norm_num [generate_chunks, chunk_tiles, cell_tiles, chunk_cell, demoDsm, demoSat,
      List.range_succ, Except.map]
  · rw [chunk_cell_bottom]
    norm_num
  · rw [chunk_cell_top]
    norm_num
  · rw [chunk_cell_top]
    norm_num

/-- C2 (amended): for same-CRS mosaics and any grid with n_rows ≥ 1, every emitted
tile's GeoCell is the code's chunk_cell of the intersection bounding box; the cell of
row index 0 starts at the bounding box bottom (the strip with the least geographic y),
cell bottoms grow linearly with the row index — strictly, when the box has positive
height — and the last row's cell reaches the bounding box top. -/
theorem C2_row_orientation (dsm sat : Raster) (n_rows n_cols : ℕ)
    (hcrs : dsm.crs = sat.crs) (hr : 1 ≤ n_rows) :
    ∃ tiles, (generate_chunks dsm sat n_rows n_cols).2 = .ok tiles ∧
      (∀ t ∈ tiles,
        t.cell = chunk_cell (max dsm.left sat.left) (max dsm.bottom sat.bottom)
          (min dsm.right sat.right) (min dsm.top sat.top) n_rows n_cols t.row t.col ∧
        t.cell.bottom = max dsm.bottom sat.bottom +
          t.row * ((min dsm.top sat.top - max dsm.bottom sat.bottom) / n_rows) ∧
        (t.row = 0 → t.cell.bottom = max dsm.bottom sat.bottom) ∧
        (t.row = n_rows - 1 → t.cell.top = min dsm.top sat.top)) ∧
      (max dsm.bottom sat.bottom < min dsm.top sat.top →
        ∀ t₁ ∈ tiles, ∀ t₂ ∈ tiles, t₁.row < t₂.row →
          t₁.cell.bottom < t₂.cell.bottom) := by
  refine ⟨chunk_tiles dsm sat n_rows n_cols, ?_, ?_, ?_⟩
  · unfold generate_chunks
    rw [if_neg (not_ne_iff.mpr hcrs)]
  · intro t ht
    rcases mem_chunk_tiles ht with ⟨row, col, _hrow, _hcol, hcell⟩
    obtain ⟨h1, h2, h3, _⟩ := cell_tiles_fields hcell
    subst h1
    subst h2
    refine ⟨h3, ?_, ?_, ?_⟩
    · rw [h3, chunk_cell_bottom]
    · intro h0
      rw [h3, chunk_cell_bottom, h0]
      norm_num
    · intro hlast
      rw [h3, chunk_cell_top, hlast]
      have hn0 : ((n_rows : ℚ)) ≠ 0 := Nat.cast_ne_zero.mpr (by omega)
      rw [Nat.cast_sub hr]
      field_simp
      ring
  · intro hpos t₁ h₁ t₂ h₂ hlt
    rcases mem_chunk_tiles h₁ with ⟨row₁, col₁, _, _, hc₁⟩
    rcases mem_chunk_tiles h₂ with ⟨row₂, col₂, _, _, hc₂⟩
    obtain ⟨e1, _, e3, _⟩ := cell_tiles_fields hc₁
    obtain ⟨f1, _, f3, _⟩ := cell_tiles_fields hc₂
    rw [e1, f1] at hlt
    have hn : (0 : ℚ) < (n_rows : ℚ) := Nat.cast_pos.mpr (by omega)
    have hch : (0 : ℚ) < (min dsm.top sat.top - max dsm.bottom sat.bottom) / n_rows :=
      div_pos (by linarith) hn
    rw [e3, f3, chunk_cell_bottom, chunk_cell_bottom]
    have hrowlt : (row₁ : ℚ) < row₂ := by exact_mod_cast hlt
    have := mul_lt_mul_of_pos_right hrowlt hch
    linarith

theorem countP_cell_tiles_kind (dsm sat : Raster) (left bottom right top : ℚ)
    (n_rows n_cols row col : ℕ) (k : TileKind) :
    (cell_tiles dsm sat left bottom right top n_rows n_cols row col).countP
      (fun t => decide (t.kind = k)) = 1 := by
  cases k <;> simp [cell_tiles, List.countP_cons, List.countP_nil]

theorem countP_cell_tiles_kind_rc (dsm sat : Raster) (left bottom right top : ℚ)
    (n_rows n_cols row col r c : ℕ) (k : TileKind) :
    (cell_tiles dsm sat left bottom right top n_rows n_cols row col).countP
      (fun t => decide (t.kind = k ∧ t.row = r ∧ t.col = c)) =
      if row = r then (if col = c then 1 else 0) else 0 := by
  cases k <;> by_cases h1 : row = r <;> by_cases h2 : col = c <;>
    simp [cell_tiles, List.countP_cons, List.countP_nil, h1, h2]

theorem kindStr_no_underscore (k : TileKind) : '_' ∉ (kindStr k).data := by
  cases k <;> decide

theorem kindStr_injective {k₁ k₂ : TileKind} (h : kindStr k₁ = kindStr k₂) : k₁ = k₂ := by
  cases k₁ <;> cases k₂ <;> first | rfl | (exfalso; exact absurd h (by decide))

theorem countP_chunk_tiles_kind (dsm sat : Raster) (n_rows n_cols : ℕ) (k : TileKind) :
    (chunk_tiles dsm sat n_rows n_cols).countP (fun t => decide (t.kind = k)) =
      n_rows * n_cols := by
  rw [countP_chunk_tiles]
  have h1 : ((List.range n_rows).map fun row =>
      ((List.range n_cols).map fun col =>
        (cell_tiles dsm sat (max dsm.left sat.left) (max dsm.bottom sat.bottom)
          (min dsm.right sat.right) (min dsm.top sat.top) n_rows n_cols row col).countP
          (fun t => decide (t.kind = k))).sum).sum =
      ((List.range n_rows).map fun _ => n_cols).sum := by
    refine congrArg List.sum (List.map_congr_left ?_)
    intro row _
    have h2 : (List.range n_cols).map (fun col =>
        (cell_tiles dsm sat (max dsm.left sat.left) (max dsm.bottom sat.bottom)
          (min dsm.right sat.right) (min dsm.top sat.top) n_rows n_cols row col).countP
          (fun t => decide (t.kind = k))) = (List.range n_cols).map fun _ => 1 :=
      List.map_congr_left fun col _ => countP_cell_tiles_kind _ _ _ _ _ _ _ _ _ _ k
    rw [h2, sum_map_const_nat, Nat.mul_one]
  rw [h1, sum_map_const_nat]

theorem countP_chunk_tiles_kind_rc (dsm sat : Raster) (n_rows n_cols r c : ℕ)
    (hr : r < n_rows) (hc : c < n_cols) (k : TileKind) :
    (chunk_tiles dsm sat n_rows n_cols).countP
      (fun t => decide (t.kind = k ∧ t.row = r ∧ t.col = c)) = 1 := by
  rw [countP_chunk_tiles]
  have h1 : ((List.range n_rows).map fun row =>
      ((List.range n_cols).map fun col =>
        (cell_tiles dsm sat (max dsm.left sat.left) (max dsm.bottom sat.bottom)
          (min dsm.right sat.right) (min dsm.top sat.top) n_rows n_cols row col).countP
          (fun t => decide (t.kind = k ∧ t.row = r ∧ t.col = c))).sum).sum =
      ((List.range n_rows).map fun row => if row = r then 1 else 0).sum := by
    refine congrArg List.sum (List.map_congr_left ?_)
    intro row _
    have h2 : (List.range n_cols).map (fun col =>
        (cell_tiles dsm sat (max dsm.left sat.left) (max dsm.bottom sat.bottom)
          (min dsm.right sat.right) (min dsm.top sat.top) n_rows n_cols row col).countP
          (fun t => decide (t.kind = k ∧ t.row = r ∧ t.col = c))) =
        (List.range n_cols).map fun col => if row = r then (if col = c then 1 else 0) else 0 :=
      List.map_congr_left fun col _ => countP_cell_tiles_kind_rc _ _ _ _ _ _ _ _ _ _ _ _ k
    rw [h2]
    by_cases hrow : row = r
    · simp only [hrow, if_true]
      rw [sum_map_ite_nat, if_pos hc]
    · simp only [hrow, if_false]
      rw [sum_map_const_nat, Nat.mul_zero]
  rw [h1, sum_map_ite_nat, if_pos hr]

/-- C4: for same-CRS mosaics and any grid shape with n_rows, n_cols ≥ 1, exactly
n_rows × n_cols elevation tiles and n_rows × n_cols color tiles are emitted, each
(row, col) pair occurring exactly once per category; every filename is the
dsm_rRRR_cCCC.png / satellite_rRRR_cCCC.png pattern (category plus zero-padded row and
column), distinct tiles carry distinct filenames (so pairs are associated by filename
alone); and for each row the n_cols cell widths sum to the width of the intersection
bounding box. -/
theorem C4_splitter_emission (dsm sat : Raster) (n_rows n_cols : ℕ)
    (hcrs : dsm.crs = sat.crs) (hr : 1 ≤ n_rows) (hc : 1 ≤ n_cols) :
    ∃ tiles, (generate_chunks dsm sat n_rows n_cols).2 = .ok tiles ∧
      tiles.countP (fun t => decide (t.kind = .dsm)) = n_rows * n_cols ∧
      tiles.countP (fun t => decide (t.kind = .satellite)) = n_rows * n_cols ∧
      (∀ r c : ℕ, r < n_rows → c < n_cols →
        tiles.countP (fun t => decide (t.kind = .dsm ∧ t.row = r ∧ t.col = c)) = 1 ∧
        tiles.countP (fun t => decide (t.kind = .satellite ∧ t.row = r ∧ t.col = c)) = 1) ∧
      (∀ t ∈ tiles, t.row < n_rows ∧ t.col < n_cols ∧
        t.filename = tileName (kindStr t.kind) t.row t.col) ∧
      (∀ t₁ ∈ tiles, ∀ t₂ ∈ tiles, t₁.filename = t₂.filename →
        t₁.kind = t₂.kind ∧ t₁.row = t₂.row ∧ t₁.col = t₂.col) ∧
      (∀ r : ℕ, ((List.range n_cols).map fun c =>
          (chunk_cell (max dsm.left sat.left) (max dsm.bottom sat.bottom)
            (min dsm.right sat.right) (min dsm.top sat.top) n_rows n_cols r c).right -
          (chunk_cell (max dsm.left sat.left) (max dsm.bottom sat.bottom)
            (min dsm.right sat.right) (min dsm.top sat.top) n_rows n_cols r c).left).sum =
        min dsm.right sat.right - max dsm.left sat.left) := by
  refine ⟨chunk_tiles dsm sat n_rows n_cols, ?_, ?_, ?_, ?_, ?_, ?_, ?_⟩
  · unfold generate_chunks
    rw [if_neg (not_ne_iff.mpr hcrs)]
  · exact countP_chunk_tiles_kind dsm sat n_rows n_cols .dsm
  · exact countP_chunk_tiles_kind dsm sat n_rows n_cols .satellite
  · intro r c hrn hcn
    exact ⟨countP_chunk_tiles_kind_rc dsm sat n_rows n_cols r c hrn hcn .dsm,
           countP_chunk_tiles_kind_rc dsm sat n_rows n_cols r c hrn hcn .satellite⟩
  · intro t ht
    rcases mem_chunk_tiles ht with ⟨row, col, hrow, hcol, hcell⟩
    obtain ⟨h1, h2, _, h4⟩ := cell_tiles_fields hcell
    subst h1
    subst h2
    exact ⟨hrow, hcol, h4⟩
  · intro t₁ h₁ t₂ h₂ hname
    rcases mem_chunk_tiles h₁ with ⟨row₁, col₁, _, _, hc₁⟩
    rcases mem_chunk_tiles h₂ with ⟨row₂, col₂, _, _, hc₂⟩
    obtain ⟨e1, e2, _, e4⟩ := cell_tiles_fields hc₁
    obtain ⟨f1, f2, _, f4⟩ := cell_tiles_fields hc₂
    rw [e4, f4] at hname
    obtain ⟨hk, hrw, hcl⟩ :=
      tileName_inj (kindStr_no_underscore t₁.kind) (kindStr_no_underscore t₂.kind) hname
    refine ⟨kindStr_injective hk, ?_, ?_⟩
    · rw [e1, f1, hrw]
    · rw [e2, f2, hcl]
  · intro r
    have hw : (List.range n_cols).map (fun c =>
        (chunk_cell (max dsm.left sat.left) (max dsm.bottom sat.bottom)
          (min dsm.right sat.right) (min dsm.top sat.top) n_rows n_cols r c).right -
        (chunk_cell (max dsm.left sat.left) (max dsm.bottom sat.bottom)
          (min dsm.right sat.right) (min dsm.top sat.top) n_rows n_cols r c).left) =
        (List.range n_cols).map fun _ =>
          (min dsm.right sat.right - max dsm.left sat.left) / n_cols := by
      refine List.map_congr_left ?_
      intro c _
      rw [chunk_cell_right, chunk_cell_left]
      ring
    rw [hw, sum_map_const_rat]
    exact mul_div_cancel₀ _ (Nat.cast_ne_zero.mpr (by omega))

/-- Witness for C2: C2_row_orientation applied to the concrete same-CRS pair with a
2×1 grid, every hypothesis discharged there. -/
theorem C2_row_orientation_witness :
    (demoDsm.crs = demoSat.crs ∧ 1 ≤ 2) ∧
    (∃ tiles, (generate_chunks demoDsm demoSat 2 1).2 = .ok tiles ∧
      (∀ t ∈ tiles,
        t.cell = chunk_cell (max demoDsm.left demoSat.left) (max demoDsm.bottom demoSat.bottom)
          (min demoDsm.right demoSat.right) (min demoDsm.top demoSat.top) 2 1 t.row t.col ∧
        t.cell.bottom = max demoDsm.bottom demoSat.bottom +
          t.row * ((min demoDsm.top demoSat.top - max demoDsm.bottom demoSat.bottom) /
            ((2 : ℕ) : ℚ)) ∧
        (t.row = 0 → t.cell.bottom = max demoDsm.bottom demoSat.bottom) ∧
        (t.row = 2 - 1 → t.cell.top = min demoDsm.top demoSat.top)) ∧
      (max demoDsm.bottom demoSat.bottom < min demoDsm.top demoSat.top →
        ∀ t₁ ∈ tiles, ∀ t₂ ∈ tiles, t₁.row < t₂.row → t₁.cell.bottom < t₂.cell.bottom)) :=
  ⟨⟨rfl, by omega⟩, C2_row_orientation demoDsm demoSat 2 1 rfl (by omega)⟩

/-- Witness for C4: C4_splitter_emission applied to the concrete same-CRS pair with
the spec's 4×4 grid, every hypothesis discharged there. -/
theorem C4_splitter_emission_witness :
    (demoDsm.crs = demoSat.crs ∧ 1 ≤ 4 ∧ 1 ≤ 4) ∧
    (∃ tiles, (generate_chunks demoDsm demoSat 4 4).2 = .ok tiles ∧
      tiles.countP (fun t => decide (t.kind = .dsm)) = 4 * 4 ∧
      tiles.countP (fun t => decide (t.kind = .satellite)) = 4 * 4 ∧
      (∀ r c : ℕ, r < 4 → c < 4 →
        tiles.countP (fun t => decide (t.kind = .dsm ∧ t.row = r ∧ t.col = c)) = 1 ∧
        tiles.countP (fun t => decide (t.kind = .satellite ∧ t.row = r ∧ t.col = c)) = 1) ∧
      (∀ t ∈ tiles, t.row < 4 ∧ t.col < 4 ∧
        t.filename = tileName (kindStr t.kind) t.row t.col) ∧
      (∀ t₁ ∈ tiles, ∀ t₂ ∈ tiles, t₁.filename = t₂.filename →
        t₁.kind = t₂.kind ∧ t₁.row = t₂.row ∧ t₁.col = t₂.col) ∧
      (∀ r : ℕ, ((List.range 4).map fun c =>
          (chunk_cell (max demoDsm.left demoSat.left) (max demoDsm.bottom demoSat.bottom)
            (min demoDsm.right demoSat.right) (min demoDsm.top demoSat.top) 4 4 r c).right -
          (chunk_cell (max demoDsm.left demoSat.left) (max demoDsm.bottom demoSat.bottom)
            (min demoDsm.right demoSat.right) (min demoDsm.top demoSat.top) 4 4 r c).left).sum =
        min demoDsm.right demoSat.right - max demoDsm.left demoSat.left)) :=
  ⟨⟨rfl, by omega, by omega⟩, C4_splitter_emission demoDsm demoSat 4 4 rfl (by omega) (by omega)⟩

/-- C10: generate_chunks reads exactly bands 1, 2, 3 of the color raster.  Under the
precondition that the raster has at least three bands, every emitted color tile's
payload is a 3-channel buffer (channel index of type Fin 3), indexed (row, col, band)
after the axis reorder, whose channel i is the boundless read of band i+1 at the
tile's window — bands 1, 2, 3 in order; and the whole output is unchanged when the
color raster is replaced by one agreeing on bands 1-3 (and on its scalar metadata) but
arbitrary beyond the third band: later bands are silently ignored. -/
theorem C10_rgb_bands (dsm sat : Raster) (n_rows n_cols : ℕ)
    (hcrs : dsm.crs = sat.crs) (hbands : 3 ≤ sat.count) :
    ∃ tiles, (generate_chunks dsm sat n_rows n_cols).2 = .ok tiles ∧
      (∀ t ∈ tiles, t.kind = .satellite →
        ∃ buf, t.payload = .rgbChunk buf ∧
          ∀ (r c : ℕ) (i : Fin 3),
            buf r c i = boundless_read sat (i.val + 1)
              ⌊(raster_window sat t.cell.left t.cell.bottom t.cell.right t.cell.top).row_off⌋
              ⌊(raster_window sat t.cell.left t.cell.bottom t.cell.right t.cell.top).col_off⌋
              r c) ∧
      (∀ sat' : Raster, sat'.crs = sat.crs → sat'.left = sat.left →
        sat'.bottom = sat.bottom → sat'.right = sat.right → sat'.top = sat.top →
        sat'.res_x = sat.res_x → sat'.res_y = sat.res_y → sat'.width = sat.width →
        sat'.height = sat.height → sat'.nodata = sat.nodata →
        (∀ b : ℕ, 1 ≤ b → b ≤ 3 → sat'.px b = sat.px b) →
        generate_chunks dsm sat' n_rows n_cols = generate_chunks dsm sat n_rows n_cols) := by
  refine ⟨chunk_tiles dsm sat n_rows n_cols, ?_, ?_, ?_⟩
  · unfold generate_chunks
    rw [if_neg (not_ne_iff.mpr hcrs)]
  · intro t ht hkind
    rcases mem_chunk_tiles ht with ⟨row, col, _, _, hcell⟩
    rcases List.mem_cons.mp hcell with rfl | hc₂
    · cases hkind
    · rcases List.mem_cons.mp hc₂ with rfl | hc₃
      · refine ⟨_, rfl, ?_⟩
        intro r c i
        rfl
      · cases hc₃
  · intro sat' h1 h2 h3 h4 h5 h6 h7 h8 h9 h10 hpx
    have hread : ∀ (ro co : ℤ) (i : Fin 3) (r c : ℕ),
        boundless_read sat' (i.val + 1) ro co r c = boundless_read sat (i.val + 1) ro co r c := by
      intro ro co i r c
      unfold boundless_read
      rw [h8, h9, h10, hpx (i.val + 1) (by omega) (by omega)]
    have hwin : ∀ a b c d : ℚ, raster_window sat' a b c d = raster_window sat a b c d := by
      intro a b c d
      unfold raster_window
      rw [h2, h5, h6, h7]
    have hcell : ∀ (left bottom right top : ℚ) (row col : ℕ),
        cell_tiles dsm sat' left bottom right top n_rows n_cols row col =
          cell_tiles dsm sat left bottom right top n_rows n_cols row col := by
      intro left bottom right top row col
      unfold cell_tiles
      simp only [hwin]
      have hbuf : ∀ ro co : ℤ,
          moveaxis_rgb (read_rgb sat' ro co) = moveaxis_rgb (read_rgb sat ro co) := by
        intro ro co
        funext r c i
        show read_rgb sat' ro co i r c = read_rgb sat ro co i r c
        unfold read_rgb
        exact hread ro co i r c
      rw [hbuf]
    have htiles : chunk_tiles dsm sat' n_rows n_cols = chunk_tiles dsm sat n_rows n_cols := by
      unfold chunk_tiles
      rw [h2, h3, h4, h5]
      exact List.flatMap_congr fun row _ => List.flatMap_congr fun col _ => hcell _ _ _ _ row col
    unfold generate_chunks
    rw [h1, htiles]

/-- Witness for C10: C10_rgb_bands applied to the concrete same-CRS pair with its
3-band color mosaic, every hypothesis discharged there. -/
theorem C10_rgb_bands_witness :
    (demoDsm.crs = demoSat.crs ∧ 3 ≤ demoSat.count) ∧
    (∃ tiles, (generate_chunks demoDsm demoSat 2 2).2 = .ok tiles ∧
      (∀ t ∈ tiles, t.kind = .satellite →
        ∃ buf, t.payload = .rgbChunk buf ∧
          ∀ (r c : ℕ) (i : Fin 3),
            buf r c i = boundless_read demoSat (i.val + 1)
              ⌊(raster_window demoSat t.cell.left t.cell.bottom t.cell.right
                  t.cell.top).row_off⌋
              ⌊(raster_window demoSat t.cell.left t.cell.bottom t.cell.right
                  t.cell.top).col_off⌋
              r c) ∧
      (∀ sat' : Raster, sat'.crs = demoSat.crs → sat'.left = demoSat.left →
        sat'.bottom = demoSat.bottom → sat'.right = demoSat.right → sat'.top = demoSat.top →
        sat'.res_x = demoSat.res_x → sat'.res_y = demoSat.res_y → sat'.width = demoSat.width →
        sat'.height = demoSat.height → sat'.nodata = demoSat.nodata →
        (∀ b : ℕ, 1 ≤ b → b ≤ 3 → sat'.px b = demoSat.px b) →
        generate_chunks demoDsm sat' 2 2 = generate_chunks demoDsm demoSat 2 2)) :=
  ⟨⟨rfl, by decide⟩, C10_rgb_bands demoDsm demoSat 2 2 rfl (by decide)⟩

end Geo2Blender
